import Mathlib

/-!
Verification development for the mpl_v2 lexical front end (src/lexer.rs,
src/token.rs).  The Rust code is shallowly embedded: the mutable `Lexer`
struct becomes an explicit state record, every scanner loop becomes a
fuel-indexed recursive function (`none` = fuel exhausted, which also lets
genuinely diverging loops be talked about), file I/O becomes an explicit
map from file names to optional contents, and the one reachable
`Option::unwrap`/indexing panic is a dedicated `TkResult.panic` outcome.
Machine integers: `i32` parsing is modelled on `Int` with an explicit
range check; `f64` values never arise on any reachable path (proved
below), so the `Float` token carries its source lexeme as a string.
Source text is modelled as a list of characters; the Rust code indexes
characters but compares against the byte length, which coincides for the
ASCII inputs all claims are about.
-/

/-- The null sentinel character the Rust scanner uses past end of input
(`unwrap_or('\0')`). -/
def nul : Char := Char.ofNat 0

/-- Embeds `Position` from src/lexer.rs: file name plus 1-based line and
column. -/
structure Position where
  fileName : String
  line : Nat
  col : Nat
deriving DecidableEq, Repr

/-- Embeds `Position::new`: a fresh cursor at line 1, column 1. -/
def Position.new (fileName : String) : Position :=
  { fileName := fileName, line := 1, col := 1 }

/-- Embeds the `Token` enum of src/token.rs, including its strum
serializations (see `Token.fromStr`).  The `Float` payload carries the
source lexeme standing for the parsed `f64`; no reachable scan path
constructs it (see `tryNumberLoop_no_dot`). -/
inductive Token where
  | Import
  | Fn
  | Main
  | Print
  | Println
  | Call
  | Ident (s : String)
  | Str (s : String)
  | Integer (n : Int)
  | Float (lexeme : String)
  | ToStr
  | LBracket
  | RBracket
  | LParen
  | RParen
  | LBrace
  | RBrace
  | Comma
  | Plus
  | Minus
  | Star
  | Slash
  | Colon
  | Dot
  | Nl
  | Local
  | True
  | False
  | Equal
  | IntType
  | FloatType
  | Let
  | For
  | To
  | Step
  | Next
  | Break
  | Eof
deriving DecidableEq, Repr

/-- Embeds the strum-derived `Token::from_str` lookup table: exact match
on the serialized spelling; data-carrying variants are produced with
their `Default` payloads (empty string, zero), exactly as strum derives
them. -/
def Token.fromStr (w : String) : Option Token :=
  if w = "import" then some .Import
  else if w = "fn" then some .Fn
  else if w = "main" then some .Main
  else if w = "print" then some .Print
  else if w = "println" then some .Println
  else if w = "call" then some .Call
  else if w = "_ident" then some (.Ident "")
  else if w = "_str" then some (.Str "")
  else if w = "_integer" then some (.Integer 0)
  else if w = "_float" then some (.Float "0")
  else if w = "to_str" then some .ToStr
  else if w = "[" then some .LBracket
  else if w = "]" then some .RBracket
  else if w = "(" then some .LParen
  else if w = ")" then some .RParen
  else if w = "\x7b" then some .LBrace
  else if w = "\x7d" then some .RBrace
  else if w = "," then some .Comma
  else if w = "+" then some .Plus
  else if w = "-" then some .Minus
  else if w = "*" then some .Star
  else if w = "/" then some .Slash
  else if w = ":" then some .Colon
  else if w = "." then some .Dot
  else if w = "nl" then some .Nl
  else if w = "local" then some .Local
  else if w = "true" then some .True
  else if w = "false" then some .False
  else if w = "=" then some .Equal
  else if w = "int" then some .IntType
  else if w = "float" then some .FloatType
  else if w = "let" then some .Let
  else if w = "for" then some .For
  else if w = "to" then some .To
  else if w = "step" then some .Step
  else if w = "next" then some .Next
  else if w = "break" then some .Break
  else if w = "_eof" then some .Eof
  else none

/-- Embeds `LexToken`: a token paired with the position where its lexeme
started. -/
structure LexToken where
  token : Token
  pos : Position
deriving DecidableEq, Repr

/-- Embeds `LexError`: message plus the position where the fault was
detected. -/
structure LexError where
  message : String
  pos : Position
deriving DecidableEq, Repr

/-- Embeds the mutable scanner state of `struct Lexer`: the source text,
the current character index `i` and the current `Position`.  The
`src_filename` field lives inside `pos.fileName` (both are initialized to
the same string by `Lexer::new`). -/
structure Lexer where
  text : List Char
  i : Nat
  pos : Position
deriving DecidableEq, Repr

/-- Embeds `Lexer::new` followed by installing the file text that
`Lexer::parse` reads: index 0, fresh position. -/
def Lexer.init (fileName : String) (text : String) : Lexer :=
  { text := text.toList, i := 0, pos := Position.new fileName }

/-- Embeds `Lexer::get_next_char`: read the character at `i` (nul past
the end), advance `i`, bump the column, and on a newline bump the line
and reset the column to 1. -/
def getNextChar (st : Lexer) : Char × Lexer :=
  let c := st.text.getD st.i nul
  let st' : Lexer :=
    { st with i := st.i + 1, pos := { st.pos with col := st.pos.col + 1 } }
  if c = '\n' then
    (c, { st' with pos := { st'.pos with line := st'.pos.line + 1, col := 1 } })
  else
    (c, st')

/-- Embeds `Lexer::bump`: consume `n` characters. -/
def bump : Nat → Lexer → Lexer
  | 0, st => st
  | n + 1, st => bump n (getNextChar st).2

/-- Embeds `Lexer::look_ahead`: `n` characters of non-consuming
lookahead, unavailable if fewer than `n` remain. -/
def lookAhead (st : Lexer) (n : Nat) : Option (List Char) :=
  if st.i + n > st.text.length then none
  else some ((st.text.drop st.i).take n)

/-- Embeds `Lexer::eof`: the index has reached the text length. -/
def eofReached (st : Lexer) : Bool :=
  st.text.length ≤ st.i

/-- The whitespace set of the scanner: space, LF, CR, tab. -/
def isWs (c : Char) : Bool :=
  c = ' ' || c = '\n' || c = '\r' || c = '\t'

/-- The loop of `Lexer::skip_whitespace`: consume characters while they
are whitespace; the state returned has consumed the first
non-whitespace character. -/
def skipWsLoop : Nat → Lexer → Option Lexer
  | 0, _ => none
  | n + 1, st =>
    let (c, st') := getNextChar st
    if isWs c then skipWsLoop n st' else some st'

/-- Embeds `Lexer::skip_whitespace`: run the loop, then step `i` and the
column back by one to un-consume the non-whitespace character. -/
def skipWhitespace (fuel : Nat) (st : Lexer) : Option Lexer :=
  (skipWsLoop fuel st).map fun st' =>
    { st' with i := st'.i - 1, pos := { st'.pos with col := st'.pos.col - 1 } }

/-- The loop of `Lexer::skip_comment_single_line`: consume characters
until a newline has been consumed.  Past end of input the scanner keeps
reading the nul sentinel, so against text without a newline this loop
never finishes (returns `none` at every fuel). -/
def skipLineLoop : Nat → Lexer → Option Lexer
  | 0, _ => none
  | n + 1, st =>
    let (c, st') := getNextChar st
    if c = '\n' then some st' else skipLineLoop n st'

/-- Embeds `Lexer::skip_comment_single_line`: only acts when the next
two characters are `//`. -/
def skipCommentSingleLine (fuel : Nat) (st : Lexer) : Option Lexer :=
  match lookAhead st 2 with
  | some la => if la = ['/', '/'] then skipLineLoop fuel st else some st
  | none => some st

/-- The loop of `Lexer::skip_comment_multiple_line`: scan for `*/`;
running out of lookahead means the comment is unclosed. -/
def skipMultiLoop : Nat → Lexer → Option (Except LexError Lexer)
  | 0, _ => none
  | n + 1, st =>
    match lookAhead st 2 with
    | none => some (.error { message := "Unclosed comment", pos := st.pos })
    | some la =>
      if la = ['*', '/'] then
        match skipWhitespace (n + 1) (bump 2 st) with
        | none => none
        | some st' => some (.ok st')
      else skipMultiLoop n (getNextChar st).2

/-- Embeds `Lexer::skip_comment_multiple_line`: only acts when the next
two characters are `/*`; after the closing `*/` it also skips trailing
whitespace. -/
def skipCommentMultipleLine (fuel : Nat) (st : Lexer) : Option (Except LexError Lexer) :=
  match lookAhead st 2 with
  | some la => if la = ['/', '*'] then skipMultiLoop fuel (bump 2 st) else some (.ok st)
  | none => some (.ok st)

/-- Embeds `Lexer::is_digit`: ASCII digit or a dot. -/
def isDigitOrDot (c : Char) : Bool :=
  if c = '.' then true else c.isDigit

/-- The loop of `Lexer::try_number`.  Arguments: fuel, the character
just consumed, the state after consuming it, the accumulated word, and
the saved state to restore when a classifiable symbol ends the number. -/
def tryNumberLoop : Nat → Char → Lexer → List Char → Lexer → Option (String × Lexer)
  | 0, _, _, _, _ => none
  | n + 1, c, st, word, saved =>
    if c = nul then some (String.mk word, st)
    else if isWs c then some (String.mk word, st)
    else
      match Token.fromStr (String.mk [c]) with
      | some _ => some (String.mk word, saved)
      | none =>
        let (c', st') := getNextChar st
        tryNumberLoop n c' st' (word ++ [c]) st

/-- Embeds `Lexer::try_number`: speculative; restores the original state
when the first character is not a digit or dot. -/
def tryNumber (fuel : Nat) (st : Lexer) : Option (Option String × Lexer) :=
  let (c, st1) := getNextChar st
  if isDigitOrDot c then
    match tryNumberLoop fuel c st1 [] st1 with
    | none => none
    | some (w, st') => some (some w, st')
  else some (none, st)

/-- The loop of `Lexer::try_string`.  Arguments: fuel, the character
just consumed, the state after consuming it, the accumulated literal.
A line terminator is a fatal unclosed-string error; the closing quote
returns the literal; the nul sentinel falls through (the caller then
restores). -/
def tryStringLoop : Nat → Char → Lexer → List Char →
    Option (Except LexError (Option (String × Lexer)))
  | 0, _, _, _ => none
  | n + 1, c, st, acc =>
    if c = nul then some (.ok none)
    else if c = '\n' ∨ c = '\r' then
      some (.error { message := "Unclosed string", pos := st.pos })
    else if c = '"' then some (.ok (some (String.mk acc, st)))
    else
      let (c', st') := getNextChar st
      tryStringLoop n c' st' (acc ++ [c])

/-- Embeds `Lexer::try_string`: speculative; on anything but a completed
literal the original state is restored. -/
def tryString (fuel : Nat) (st : Lexer) : Option (Except LexError (Option String × Lexer)) :=
  let (c, st1) := getNextChar st
  if c = '"' then
    let (c2, st2) := getNextChar st1
    match tryStringLoop fuel c2 st2 [] with
    | none => none
    | some (.error e) => some (.error e)
    | some (.ok (some (s, st'))) => some (.ok (some s, st'))
    | some (.ok none) => some (.ok (none, st))
  else some (.ok (none, st))

/-- Embeds `Lexer::try_symbol`: classify the single next character,
restoring the state when it is not a known token spelling. -/
def trySymbol (st : Lexer) : Option Token × Lexer :=
  let (c, st') := getNextChar st
  match Token.fromStr (String.mk [c]) with
  | none => (none, st)
  | some t => (some t, st')

/-- The loop of `Lexer::get_next_word`.  Arguments: fuel, current state,
accumulated word, saved state to restore when a classifiable symbol ends
the word.  Whitespace and the nul sentinel end the word while staying
consumed. -/
def getNextWordLoop : Nat → Lexer → List Char → Lexer → Option (List Char × Lexer)
  | 0, _, _, _ => none
  | n + 1, st, word, saved =>
    let (c, st') := getNextChar st
    if c = nul ∨ isWs c then some (word, st')
    else
      match Token.fromStr (String.mk [c]) with
      | some _ => some (word, saved)
      | none => getNextWordLoop n st' (word ++ [c]) st'

/-- Embeds `Lexer::get_next_word`: empty words become `none`. -/
def getNextWord (fuel : Nat) (st : Lexer) : Option (Option String × Lexer) :=
  match getNextWordLoop fuel st [] st with
  | none => none
  | some (w, st') => some (if w.isEmpty then none else some (String.mk w), st')

/-- Embeds `Lexer::is_ident_valid`: the word starts with an ASCII letter
and every character is ASCII alphanumeric or an underscore. -/
def isIdentValid (w : String) : Bool :=
  (match w.toList with
   | [] => false
   | c :: _ => c.isAlpha) && w.toList.all fun c => c.isAlphanum || c = '_'

/-- Models Rust `str::parse::<i32>`: an optional sign, one or more ASCII
digits, and the value must fit in a 32-bit signed integer. -/
def parseI32 (s : String) : Option Int :=
  let cs := s.toList
  let signed : Bool × List Char :=
    match cs with
    | '+' :: rest => (false, rest)
    | '-' :: rest => (true, rest)
    | _ => (false, cs)
  let ds := signed.2
  if ds.isEmpty || !(ds.all Char.isDigit) then none
  else
    let mag : Nat := ds.foldl (fun acc c => 10 * acc + (c.toNat - '0'.toNat)) 0
    let v : Int := if signed.1 then -(mag : Int) else (mag : Int)
    if v < -(2 ^ 31) || (2 ^ 31 : Int) - 1 < v then none else some v

/-- Models Rust `str::parse::<f64>` on the digit-and-dot lexemes the
scanner could hand it (no exponents or infinities, which cannot occur in
a `try_number` word): an optional sign, then digits and dots with at
most one dot and at least one digit.  The parsed value is represented by
the accepted lexeme itself; the scan loop below never reaches this
function with a dot-containing word (`tryNumberLoop_no_dot`), so the
binary64 value is never needed. -/
def parseF64 (s : String) : Option String :=
  let cs := s.toList
  let body : List Char :=
    match cs with
    | '+' :: rest => rest
    | '-' :: rest => rest
    | _ => cs
  if body.all (fun c => c.isDigit || c = '.') &&
      (body.filter (fun c => c = '.')).length ≤ 1 &&
      (body.filter Char.isDigit).length ≥ 1 then
    some s
  else none

/-- One iteration's skip phase of `Lexer::parse`: whitespace, then at
most one `//` comment, then at most one `/*...*/` comment, in that
order, each at most once. -/
def skipPhase (fuel : Nat) (st : Lexer) : Option (Except LexError Lexer) :=
  match skipWhitespace fuel st with
  | none => none
  | some st1 =>
    match skipCommentSingleLine fuel st1 with
    | none => none
    | some st2 => skipCommentMultipleLine fuel st2

/-- The main loop of `Lexer::parse`: per iteration run the skip phase,
then stop at end of input with an `Eof` token, else try in order a
string literal, a single-character symbol, a number, and finally a
keyword-or-identifier word. -/
def scanLoop : Nat → Lexer → List LexToken → Option (Except LexError (List LexToken))
  | 0, _, _ => none
  | n + 1, st0, acc =>
    match skipPhase (n + 1) st0 with
    | none => none
    | some (.error e) => some (.error e)
    | some (.ok st3) =>
      let pos := st3.pos
      if eofReached st3 then some (.ok (acc ++ [{ token := .Eof, pos := pos }]))
      else
        match tryString (n + 1) st3 with
        | none => none
        | some (.error e) => some (.error e)
        | some (.ok (some s, st4)) =>
          scanLoop n st4 (acc ++ [{ token := .Str s, pos := pos }])
        | some (.ok (none, st4)) =>
          match trySymbol st4 with
          | (some t, st5) => scanLoop n st5 (acc ++ [{ token := t, pos := pos }])
          | (none, st5) =>
            match tryNumber (n + 1) st5 with
            | none => none
            | some (some w, st6) =>
              if w.toList.contains '.' then
                match parseF64 w with
                | some f => scanLoop n st6 (acc ++ [{ token := .Float f, pos := pos }])
                | none =>
                  some (.error
                    { message := "invalid float number format [" ++ w ++ "]", pos := pos })
              else
                match parseI32 w with
                | some v => scanLoop n st6 (acc ++ [{ token := .Integer v, pos := pos }])
                | none =>
                  some (.error
                    { message := "invalid integer format [" ++ w ++ "]", pos := pos })
            | some (none, st6) =>
              match getNextWord (n + 1) st6 with
              | none => none
              | some (some w, st7) =>
                match Token.fromStr w with
                | some t => scanLoop n st7 (acc ++ [{ token := t, pos := pos }])
                | none =>
                  if isIdentValid w then
                    scanLoop n st7 (acc ++ [{ token := .Ident w, pos := pos }])
                  else
                    some (.error { message := "Unknown token [" ++ w ++ "]", pos := pos })
              | some (none, st7) => scanLoop n st7 acc

/-- Single-file tokenization of given text: `Lexer::parse` after the
file has been read. -/
def scan (fuel : Nat) (fileName : String) (text : String) :
    Option (Except LexError (List LexToken)) :=
  scanLoop fuel (Lexer.init fileName text) []

/-- The outcome of a whole tokenization run: a token stream, a lexical
error, or an aborted process (the Rust code can panic via
`Option::unwrap` in `Lexer::parse` and via `tokens[i]` indexing in
`Lexer::tokenize`). -/
inductive TkResult where
  | ok (tokens : List LexToken)
  | err (e : LexError)
  | panic
deriving DecidableEq, Repr

/-- A file system: map from file name to optional contents, modelling
`fs::read_to_string` (none = missing/unreadable). -/
def FS : Type := String → Option String

/-- Embeds `Lexer::parse_file` / the file-reading prologue of
`Lexer::parse`: on a read failure the error is built with
`pos.unwrap()`, which panics when no position was supplied (the main
file is parsed with `None`). -/
def parseFile (fuel : Nat) (fs : FS) (fileName : String) (pos : Option Position) :
    Option TkResult :=
  match fs fileName with
  | none =>
    match pos with
    | some p => some (.err { message := "File not found " ++ fileName, pos := p })
    | none => some .panic
  | some text =>
    match scan fuel fileName text with
    | none => none
    | some (.error e) => some (.err e)
    | some (.ok ts) => some (.ok ts)

/-- The recursion of `Lexer::get_import_list`: walk the length-2 windows
of the token list; an `Import` token must be followed by a string, the
path must be new, and from the second recorded import on the new index
must be exactly 2 past the previously recorded one. -/
def getImportListAux : List LexToken → Nat → List (Nat × String) →
    Except LexError (List (Nat × String))
  | t0 :: t1 :: rest, i, acc =>
    if t0.token = Token.Import then
      match t1.token with
      | Token.Str s =>
        if acc.any (fun p => p.2 = s) then
          .error { message := "import " ++ s ++ " already defined", pos := t1.pos }
        else
          match acc.getLast? with
          | some prev =>
            if prev.1 + 2 ≠ i then
              .error { message := "import can\x27t be after instruction", pos := t1.pos }
            else getImportListAux (t1 :: rest) (i + 1) (acc ++ [(i, s)])
          | none => getImportListAux (t1 :: rest) (i + 1) (acc ++ [(i, s)])
      | _ => .error { message := "import must be a string", pos := t1.pos }
    else getImportListAux (t1 :: rest) (i + 1) acc
  | _, _, acc => .ok acc

/-- Embeds `Lexer::get_import_list`. -/
def getImportList (tokens : List LexToken) : Except LexError (List (Nat × String)) :=
  getImportListAux tokens 0 []

/-- Insertion step for the descending sort of the import list. -/
def insertDesc (x : Nat × String) : List (Nat × String) → List (Nat × String)
  | [] => [x]
  | y :: ys => if y.1 < x.1 then x :: y :: ys else y :: insertDesc x ys

/-- Embeds `imports.sort_by_key(Reverse(index))`: sort the recorded
entries by descending token index (their indices are pairwise distinct,
so stability is irrelevant). -/
def sortByIndexDesc : List (Nat × String) → List (Nat × String)
  | [] => []
  | x :: xs => insertDesc x (sortByIndexDesc xs)

/-- Models `Lexer::dir_with_sep` (std::path parent plus a trailing
separator) for simple relative paths without repeated separators: keep
everything up to and including the last slash; a bare file name gets
parent `""` hence `"/"`; the empty path has no parent. -/
def dirWithSep (path : String) : Option String :=
  if path = "" then none
  else if path.toList.contains '/' then
    some (String.mk (((path.toList.reverse.dropWhile fun c => c ≠ '/')).reverse))
  else some "/"

/-- The splicing loop of `Lexer::tokenize`: for each recorded import (in
the order of the descending sort) parse the referenced file with the
position of the `Import` token, drop the parsed stream's trailing
token, and replace the two-token directive in place.  Two Rust panics
are modelled, in statement order: out-of-range indexing of `tokens[i]`
(before the import file is parsed), and `Vec::splice` with the range
`i..=i+1` reaching past the end of the vector, i.e. `i + 2` exceeding
the length (after the parse, whose own error would propagate first). -/
def spliceLoop (fuel : Nat) (fs : FS) (wp : String) :
    List (Nat × String) → List LexToken → Option TkResult
  | [], tokens => some (.ok tokens)
  | (i, name) :: rest, tokens =>
    match tokens.get? i with
    | none => some .panic
    | some t =>
      match parseFile fuel fs (wp ++ name) (some t.pos) with
      | none => none
      | some .panic => some .panic
      | some (.err e) => some (.err e)
      | some (.ok imp) =>
        if i + 2 ≤ tokens.length then
          spliceLoop fuel fs wp rest (tokens.take i ++ imp.dropLast ++ tokens.drop (i + 2))
        else some .panic

/-- Embeds `Lexer::tokenize`: parse the main file, extract and validate
its import list, then splice every imported file from the highest
recorded index down to the lowest. -/
def tokenize (fuel : Nat) (fs : FS) (mainName : String) : Option TkResult :=
  match parseFile fuel fs mainName none with
  | none => none
  | some .panic => some .panic
  | some (.err e) => some (.err e)
  | some (.ok tokens) =>
    let wp := (dirWithSep mainName).getD "."
    match getImportList tokens with
    | .error e => some (.err e)
    | .ok imports => spliceLoop fuel fs wp (sortByIndexDesc imports) tokens

theorem getNextChar_fst (st : Lexer) : (getNextChar st).1 = st.text.getD st.i nul := by
  simp only [getNextChar]
  split <;> rfl

theorem getNextChar_text (st : Lexer) : (getNextChar st).2.text = st.text := by
  simp only [getNextChar]
  split <;> rfl

theorem getNextChar_i (st : Lexer) : (getNextChar st).2.i = st.i + 1 := by
  simp only [getNextChar]
  split <;> rfl

/-- A list without newlines never hands the line-comment loop a newline,
so the loop exhausts every fuel: this is the divergence of
`skip_comment_single_line` on a final unterminated `//` line. -/
theorem skipLineLoop_no_newline :
    ∀ (n : Nat) (st : Lexer), '\n' ∉ st.text → skipLineLoop n st = none := by
  intro n
  induction n with
  | zero => intro st _; rfl
  | succ n ih =>
    intro st h
    have hc : (getNextChar st).1 ≠ '\n' := by
      rw [getNextChar_fst]
      rcases Nat.lt_or_ge st.i st.text.length with hlt | hge
      · rw [List.getD_eq_getElem _ _ hlt]
        intro heq
        exact h (heq ▸ List.getElem_mem hlt)
      · rw [List.getD_eq_default _ _ hge]
        decide
    have h' : '\n' ∉ (getNextChar st).2.text := by
      rw [getNextChar_text]; exact h
    unfold skipLineLoop
    simp only [if_neg hc]
    exact ih _ h'

/-- C1: the claim says tokenizing `"42"` yields `Integer(42)`, `"3.14"`
yields `Float(3.14)`, and `"3.14.1"` fails with InvalidNumberFormat.
The code satisfies only the first part: since `identify_token`
classifies `"."` as the `Dot` symbol, `try_number` stops every numeric
lexeme at a dot, so `"3.14"` scans as `Integer 3, Dot, Integer 14` and
`"3.14.1"` scans without any error; the float branch of the scan loop is
unreachable. -/
theorem c1_number_lexing_bug :
    scan 40 "m" "42" = some (.ok
      [{ token := .Integer 42, pos := { fileName := "m", line := 1, col := 1 } },
       { token := .Eof, pos := { fileName := "m", line := 1, col := 4 } }]) ∧
    scan 40 "m" "3.14" = some (.ok
      [{ token := .Integer 3, pos := { fileName := "m", line := 1, col := 1 } },
       { token := .Dot, pos := { fileName := "m", line := 1, col := 2 } },
       { token := .Integer 14, pos := { fileName := "m", line := 1, col := 3 } },
       { token := .Eof, pos := { fileName := "m", line := 1, col := 6 } }]) ∧
    scan 40 "m" "3.14.1" = some (.ok
      [{ token := .Integer 3, pos := { fileName := "m", line := 1, col := 1 } },
       { token := .Dot, pos := { fileName := "m", line := 1, col := 2 } },
       { token := .Integer 14, pos := { fileName := "m", line := 1, col := 3 } },
       { token := .Dot, pos := { fileName := "m", line := 1, col := 5 } },
       { token := .Integer 1, pos := { fileName := "m", line := 1, col := 6 } },
       { token := .Eof, pos := { fileName := "m", line := 1, col := 8 } }]) := by
  refine ⟨rfl, rfl, rfl⟩

/-- C3: the claim says an `(Import, Str)` pair occurring after ordinary
program tokens always fails with ImportAfterInstruction, even for the
first import of the file.  The code only compares a newly found import
against the previously *recorded* import (`if k > 0`), so the
first import pair is accepted at any position: `print import "x.mpl"` scans
cleanly and its import extraction succeeds, recording index 1. -/
theorem c3_import_after_instruction_bug :
    scan 40 "m" "print import \"x.mpl\"" = some (.ok
      [{ token := .Print, pos := { fileName := "m", line := 1, col := 1 } },
       { token := .Import, pos := { fileName := "m", line := 1, col := 7 } },
       { token := .Str "x.mpl", pos := { fileName := "m", line := 1, col := 14 } },
       { token := .Eof, pos := { fileName := "m", line := 1, col := 21 } }]) ∧
    getImportList
      [{ token := .Print, pos := { fileName := "m", line := 1, col := 1 } },
       { token := .Import, pos := { fileName := "m", line := 1, col := 7 } },
       { token := .Str "x.mpl", pos := { fileName := "m", line := 1, col := 14 } },
       { token := .Eof, pos := { fileName := "m", line := 1, col := 21 } }] =
      .ok [(1, "x.mpl")] :=
  ⟨rfl, rfl⟩

set_option maxHeartbeats 1000000 in
/-- If the skip phase runs out of fuel (in particular when the
single-line comment loop diverges), so does the whole scan loop. -/
theorem scanLoop_of_skipPhase_none {n : Nat} {st : Lexer} {acc : List LexToken}
    (h : skipPhase (n + 1) st = none) : scanLoop (n + 1) st acc = none := by
  unfold scanLoop
  rw [h]

/-- C5: the claim says single-file tokenization always terminates, in
particular on a file whose last line is an unterminated `//` comment.
The loop of `skip_comment_single_line` only stops on a newline, and past
end of input `get_next_char` returns the nul sentinel forever, so the
text `//x` (no trailing newline) exhausts every fuel bound, while the
same comment closed by a newline terminates normally. -/
theorem c5_line_comment_divergence :
    (∀ fuel : Nat, scan fuel "m" "//x" = none) ∧
    scan 20 "m" "//x\n" = some (.ok
      [{ token := .Eof, pos := { fileName := "m", line := 2, col := 1 } }]) := by
  constructor
  · intro fuel
    cases fuel with
    | zero => rfl
    | succ n =>
      have hdiv : skipLineLoop (n + 1) (Lexer.init "m" "//x") = none :=
        skipLineLoop_no_newline _ _ (by decide)
      have h0 : skipPhase (n + 1) (Lexer.init "m" "//x") =
          (match skipLineLoop (n + 1) (Lexer.init "m" "//x") with
           | none => none
           | some st2 => skipCommentMultipleLine (n + 1) st2) := rfl
      have hp : skipPhase (n + 1) (Lexer.init "m" "//x") = none := by
        rw [h0, hdiv]
      exact scanLoop_of_skipPhase_none hp
  · rfl

/-- C7: the claim says a missing or unreadable file always produces a
terminal IOError-style value, for the main file as well as for imports,
with no panic.  For an *imported* file this holds (second conjunct), but
for the *main* file `Lexer::parse` builds the error position with
`pos.unwrap()` on the `None` that `tokenize` passes, which panics
(first conjunct). -/
theorem c7_missing_file_behavior :
    tokenize 40 (fun _ => none) "d/m.mpl" = some .panic ∧
    tokenize 60
      (fun n => if n = "d/m.mpl" then some "import \"a.mpl\"" else none)
      "d/m.mpl" =
      some (.err { message := "File not found d/a.mpl",
                   pos := { fileName := "d/m.mpl", line := 1, col := 1 } }) :=
  ⟨rfl, rfl⟩

/-- C4 counterexample: the claim says every successful tokenization
yields exactly one `Eof`, in final position only.  The word `_eof` is a
strum serialization of the `Eof` variant, so a source file containing
the text `_eof` scans to an `Eof` token in non-final position: the run
below succeeds with two `Eof` tokens. -/
theorem c4_counterexample :
    tokenize 60 (fun n => if n = "m.mpl" then some "_eof" else none) "m.mpl" =
      some (.ok
        [{ token := .Eof, pos := { fileName := "m.mpl", line := 1, col := 1 } },
         { token := .Eof, pos := { fileName := "m.mpl", line := 1, col := 6 } }]) :=
  rfl

/-- C6 counterexample: the claim says an opening quote followed by end
of input (no line terminator) fails with UnclosedString.  In the code,
`try_string` exits its loop on the nul sentinel and *restores* the
cursor, so the quote falls through to the generic word scan and the run
fails with an Unknown token error instead. -/
theorem c6_counterexample :
    scan 40 "m" "\"abc" = some (.error
      { message := "Unknown token [\"abc]",
        pos := { fileName := "m", line := 1, col := 1 } }) :=
  rfl

/-- C8 counterexample: the claim says the whitespace-and-comment skip
phase is idempotent, so two consecutive `//` comments are both skipped
and never lexed as `Slash` tokens.  The phase runs only once per
iteration, and in the same iteration symbol recognition follows it, so
after skipping `//a` the second comment line `//b` is lexed as two
`Slash` tokens and an identifier. -/
theorem c8_counterexample :
    scan 60 "m" "//a\n//b\nx" = some (.ok
      [{ token := .Slash, pos := { fileName := "m", line := 2, col := 1 } },
       { token := .Slash, pos := { fileName := "m", line := 2, col := 2 } },
       { token := .Ident "b", pos := { fileName := "m", line := 2, col := 3 } },
       { token := .Ident "x", pos := { fileName := "m", line := 3, col := 1 } },
       { token := .Eof, pos := { fileName := "m", line := 3, col := 3 } }]) :=
  rfl

/-- C8 amended: the skip phase (whitespace, then at most one `//`
comment, then at most one `/*...*/` comment) runs exactly once before
each token recognition and is not idempotent: after it skips the first
of two consecutive `//` line comments, the remaining input still begins
with `//`, and a second application of the phase would move further. -/
theorem c8_skip_phase_runs_once :
    skipPhase 60 (Lexer.init "m" "//a\n//b\nx") = some (.ok
      { text := "//a\n//b\nx".toList, i := 4,
        pos := { fileName := "m", line := 2, col := 1 } }) ∧
    lookAhead
      { text := "//a\n//b\nx".toList, i := 4,
        pos := { fileName := "m", line := 2, col := 1 } } 2 = some ['/', '/'] ∧
    skipPhase 60
      { text := "//a\n//b\nx".toList, i := 4,
        pos := { fileName := "m", line := 2, col := 1 } } = some (.ok
      { text := "//a\n//b\nx".toList, i := 8,
        pos := { fileName := "m", line := 3, col := 1 } }) ∧
    ({ text := "//a\n//b\nx".toList, i := 8,
       pos := { fileName := "m", line := 3, col := 1 } } : Lexer) ≠
      { text := "//a\n//b\nx".toList, i := 4,
        pos := { fileName := "m", line := 2, col := 1 } } :=
  ⟨rfl, rfl, rfl, by decide⟩

/-- C9: consuming a character through `get_next_char` increments the
column and leaves the line unchanged, except that consuming a newline
increments the line and resets the column to exactly 1; a fresh
`Position` starts at line 1, column 1. -/
theorem c9_position_tracking :
    (∀ (st : Lexer) (c : Char) (st' : Lexer), getNextChar st = (c, st') →
      ((c ≠ '\n' → st'.pos.col = st.pos.col + 1 ∧ st'.pos.line = st.pos.line) ∧
       (c = '\n' → st'.pos.line = st.pos.line + 1 ∧ st'.pos.col = 1))) ∧
    (∀ fileName : String,
      Position.new fileName = { fileName := fileName, line := 1, col := 1 }) := by
  constructor
  · intro st c st' h
    simp only [getNextChar] at h
    split at h <;> rw [Prod.mk.injEq] at h <;> obtain ⟨rfl, rfl⟩ := h
    · rename_i hch
      refine ⟨fun hc => absurd hch hc, fun _ => ⟨rfl, rfl⟩⟩
    · rename_i hch
      exact ⟨fun _ => ⟨rfl, rfl⟩, fun hc => absurd hc hch⟩
  · intro fileName
    rfl

theorem c9_position_tracking_witness :
    ((getNextChar (Lexer.init "m" "ab")).2.pos.col =
        (Lexer.init "m" "ab").pos.col + 1 ∧
     (getNextChar (Lexer.init "m" "ab")).2.pos.line =
        (Lexer.init "m" "ab").pos.line) ∧
    ((getNextChar (Lexer.init "m" "\nb")).2.pos.line =
        (Lexer.init "m" "\nb").pos.line + 1 ∧
     (getNextChar (Lexer.init "m" "\nb")).2.pos.col = 1) :=
  ⟨(c9_position_tracking.1 (Lexer.init "m" "ab") 'a'
      (getNextChar (Lexer.init "m" "ab")).2 rfl).1 (by decide),
   (c9_position_tracking.1 (Lexer.init "m" "\nb") '\n'
      (getNextChar (Lexer.init "m" "\nb")).2 rfl).2 rfl⟩

/-- C10: import resolution is non-recursive.  First conjunct: splicing a
recorded import whose two-token directive lies within bounds (the range
`i..=i+1` that `Vec::splice` would otherwise panic on stays inside the
vector) inserts the imported file's scanned tokens verbatim
(minus the trailing token) — no import extraction, validation or further
splicing is applied to them.  Second conjunct: when an imported file
itself contains an `(Import, Str)` pair, those tokens are copied into
the merged stream unresolved, and the result does not depend on the
file-system entry for the inner path (quantifying over `g` shows no
further file is read and no validation error is raised). -/
theorem c10_non_recursive_imports :
    (∀ (fuel : Nat) (fs : FS) (wp name : String) (i : Nat)
       (tokens imp : List LexToken) (t : LexToken),
      tokens.get? i = some t →
      parseFile fuel fs (wp ++ name) (some t.pos) = some (.ok imp) →
      i + 2 ≤ tokens.length →
      spliceLoop fuel fs wp [(i, name)] tokens =
        some (.ok (tokens.take i ++ imp.dropLast ++ tokens.drop (i + 2)))) ∧
    (∀ g : String → Option String,
      tokenize 80
        (fun n => if n = "d/m.mpl" then some "import \"a.mpl\" print"
                  else if n = "d/a.mpl" then some "import \"x.mpl\"" else g n)
        "d/m.mpl" =
        some (.ok
          [{ token := .Import, pos := { fileName := "d/a.mpl", line := 1, col := 1 } },
           { token := .Str "x.mpl", pos := { fileName := "d/a.mpl", line := 1, col := 8 } },
           { token := .Print, pos := { fileName := "d/m.mpl", line := 1, col := 16 } },
           { token := .Eof, pos := { fileName := "d/m.mpl", line := 1, col := 22 } }])) := by
  constructor
  · intro fuel fs wp name i tokens imp t hget hparse hlen
    rw [List.get?_eq_getElem?] at hget
    simp [spliceLoop, hget, hparse, hlen]
  · intro g
    rfl

theorem c10_non_recursive_imports_witness :
    spliceLoop 20 (fun n => if n = "d/a.mpl" then some "fn" else none) "d/"
      [(0, "a.mpl")]
      [{ token := .Import, pos := { fileName := "d/m.mpl", line := 1, col := 1 } },
       { token := .Str "a.mpl", pos := { fileName := "d/m.mpl", line := 1, col := 8 } },
       { token := .Eof, pos := { fileName := "d/m.mpl", line := 1, col := 14 } }] =
      some (.ok
        (List.take 0
          [{ token := .Import, pos := { fileName := "d/m.mpl", line := 1, col := 1 } },
           { token := .Str "a.mpl", pos := { fileName := "d/m.mpl", line := 1, col := 8 } },
           { token := .Eof, pos := { fileName := "d/m.mpl", line := 1, col := 14 } }] ++
         List.dropLast
          [{ token := .Fn, pos := { fileName := "d/a.mpl", line := 1, col := 1 } },
           { token := .Eof, pos := { fileName := "d/a.mpl", line := 1, col := 4 } }] ++
         List.drop 2
          [{ token := .Import, pos := { fileName := "d/m.mpl", line := 1, col := 1 } },
           { token := .Str "a.mpl", pos := { fileName := "d/m.mpl", line := 1, col := 8 } },
           { token := .Eof, pos := { fileName := "d/m.mpl", line := 1, col := 14 } }])) :=
  c10_non_recursive_imports.1 20 (fun n => if n = "d/a.mpl" then some "fn" else none)
    "d/" "a.mpl" 0 _
    [{ token := .Fn, pos := { fileName := "d/a.mpl", line := 1, col := 1 } },
     { token := .Eof, pos := { fileName := "d/a.mpl", line := 1, col := 4 } }]
    { token := .Import, pos := { fileName := "d/m.mpl", line := 1, col := 1 } }
    rfl rfl (by decide)

/-- A window scan over tokens none of which is `Import` records
nothing. -/
theorem getImportListAux_no_import :
    ∀ (l : List LexToken) (i : Nat) (acc : List (Nat × String)),
      (∀ tok ∈ l, tok.token ≠ Token.Import) →
      getImportListAux l i acc = .ok acc := by
  intro l
  induction l with
  | nil => intro i acc _; rfl
  | cons t0 l' ih =>
    intro i acc h
    cases l' with
    | nil => rfl
    | cons t1 rest =>
      unfold getImportListAux
      rw [if_neg (h t0 (List.mem_cons_self _ _))]
      exact ih (i + 1) acc fun tok htok => h tok (List.mem_cons_of_mem _ htok)


/-- C2: for a main file whose tokens are `[Import, Str a, Import, Str b]`
followed by import-free program tokens and the terminal `Eof`, with the
two import paths distinct and both files resolvable and tokenizable,
`tokenize` returns `tokens(a)` minus its trailing `Eof`, then
`tokens(b)` minus its trailing `Eof`, then the program tokens, then the
main `Eof`.  The splice for index 2 happens before the splice for index
0 (descending order), and each import parse receives the position of its
`Import` token. -/
theorem c2_import_splicing (fuel : Nat) (fs : FS) (mainName a b : String)
    (t1 t2 t3 t4 te : LexToken) (prog ta tb : List LexToken)
    (h1 : t1.token = .Import) (h2 : t2.token = .Str a)
    (h3 : t3.token = .Import) (h4 : t4.token = .Str b)
    (hte : te.token = .Eof)
    (hab : a ≠ b)
    (hprog : ∀ tok ∈ prog, tok.token ≠ .Import)
    (hmain : parseFile fuel fs mainName none =
      some (.ok (t1 :: t2 :: t3 :: t4 :: (prog ++ [te]))))
    (ha : parseFile fuel fs ((dirWithSep mainName).getD "." ++ a) (some t1.pos) =
      some (.ok ta))
    (hb : parseFile fuel fs ((dirWithSep mainName).getD "." ++ b) (some t3.pos) =
      some (.ok tb)) :
    tokenize fuel fs mainName =
      some (.ok (ta.dropLast ++ tb.dropLast ++ prog ++ [te])) := by
  obtain ⟨tt1, p1⟩ := t1
  obtain ⟨tt2, p2⟩ := t2
  obtain ⟨tt3, p3⟩ := t3
  obtain ⟨tt4, p4⟩ := t4
  obtain ⟨tte, pe⟩ := te
  dsimp only at h1 h2 h3 h4 hte ha hb
  subst h1 h2 h3 h4 hte
  have himps : getImportList ({ token := .Import, pos := p1 } ::
      { token := .Str a, pos := p2 } :: { token := .Import, pos := p3 } ::
      { token := .Str b, pos := p4 } :: (prog ++ [{ token := .Eof, pos := pe }])) =
      .ok [(0, a), (2, b)] := by
    unfold getImportList
    simp [getImportListAux, hab]
    exact getImportListAux_no_import _ 3 _ (by
      intro tok htok
      rcases List.mem_cons.1 htok with rfl | htok'
      · exact fun hc => Token.noConfusion hc
      · rcases List.mem_append.1 htok' with hp | hl
        · exact hprog tok hp
        · rcases List.mem_singleton.1 hl with rfl
          exact fun hc => Token.noConfusion hc)
  have hsort : sortByIndexDesc [(0, a), (2, b)] = [(2, b), (0, a)] := by
    simp [sortByIndexDesc, insertDesc]
  simp only [tokenize, hmain, himps, hsort]
  simp [spliceLoop, List.get?, hb, ha]

/-- The two-import example file system used to witness the splicing
theorem. -/
def fsTwoImports : FS := fun n =>
  if n = "d/m.mpl" then some "import \"a.mpl\" import \"b.mpl\" print"
  else if n = "d/a.mpl" then some "fn"
  else if n = "d/b.mpl" then some "let"
  else none

theorem c2_import_splicing_witness :
    tokenize 60 fsTwoImports "d/m.mpl" =
      some (.ok
        (List.dropLast
          [{ token := .Fn, pos := { fileName := "d/a.mpl", line := 1, col := 1 } },
           { token := .Eof, pos := { fileName := "d/a.mpl", line := 1, col := 4 } }] ++
         List.dropLast
          [{ token := .Let, pos := { fileName := "d/b.mpl", line := 1, col := 1 } },
           { token := .Eof, pos := { fileName := "d/b.mpl", line := 1, col := 5 } }] ++
         [{ token := .Print, pos := { fileName := "d/m.mpl", line := 1, col := 31 } }] ++
         [{ token := .Eof, pos := { fileName := "d/m.mpl", line := 1, col := 37 } }])) :=
  c2_import_splicing 60 fsTwoImports "d/m.mpl" "a.mpl" "b.mpl"
    { token := .Import, pos := { fileName := "d/m.mpl", line := 1, col := 1 } }
    { token := .Str "a.mpl", pos := { fileName := "d/m.mpl", line := 1, col := 8 } }
    { token := .Import, pos := { fileName := "d/m.mpl", line := 1, col := 16 } }
    { token := .Str "b.mpl", pos := { fileName := "d/m.mpl", line := 1, col := 23 } }
    { token := .Eof, pos := { fileName := "d/m.mpl", line := 1, col := 37 } }
    [{ token := .Print, pos := { fileName := "d/m.mpl", line := 1, col := 31 } }]
    [{ token := .Fn, pos := { fileName := "d/a.mpl", line := 1, col := 1 } },
     { token := .Eof, pos := { fileName := "d/a.mpl", line := 1, col := 4 } }]
    [{ token := .Let, pos := { fileName := "d/b.mpl", line := 1, col := 1 } },
     { token := .Eof, pos := { fileName := "d/b.mpl", line := 1, col := 5 } }]
    rfl rfl rfl rfl rfl (by decide) (by decide) rfl rfl rfl

set_option maxHeartbeats 2000000 in
theorem scanLoop_endsEof :
    ∀ (fuel : Nat) (st : Lexer) (acc : List LexToken) (ts : List LexToken),
      scanLoop fuel st acc = some (.ok ts) →
      ∃ p, ts.getLast? = some { token := Token.Eof, pos := p } := by
  intro fuel
  induction fuel with
  | zero => intro st acc ts h; exact absurd h (by simp [scanLoop])
  | succ n ih =>
    intro st acc ts h
    unfold scanLoop at h
    repeat' split at h
    all_goals first
      | exact ih _ _ _ h
      | (simp only [Option.some.injEq, Except.ok.injEq] at h; subst h;
         exact ⟨_, List.getLast?_concat _⟩)
      | simp at h

theorem good_shift {t0 : LexToken} {l : List LexToken} {i : Nat} {p : Nat × String}
    (h : i + 1 ≤ p.1 ∧ ∃ u v : LexToken,
      l.get? (p.1 - (i + 1)) = some u ∧ l.get? (p.1 - (i + 1) + 1) = some v ∧
      u.token = Token.Import ∧ v.token = Token.Str p.2) :
    i ≤ p.1 ∧ ∃ u v : LexToken,
      (t0 :: l).get? (p.1 - i) = some u ∧ (t0 :: l).get? (p.1 - i + 1) = some v ∧
      u.token = Token.Import ∧ v.token = Token.Str p.2 := by
  obtain ⟨hi, u, v, hu, hv, htu, htv⟩ := h
  have e1 : p.1 - i = (p.1 - (i + 1)) + 1 := by omega
  refine ⟨by omega, u, v, ?_, ?_, htu, htv⟩
  · rw [e1, List.get?_cons_succ]; exact hu
  · rw [e1, List.get?_cons_succ]; exact hv

theorem getImportListAux_spec :
    ∀ (l : List LexToken) (i : Nat) (acc res : List (Nat × String)),
      getImportListAux l i acc = .ok res →
      (∀ p ∈ acc, p.1 < i) →
      List.Pairwise (fun p q => p.1 < q.1) acc →
      List.Pairwise (fun p q => p.1 < q.1) res ∧
      ∀ p ∈ res, p ∈ acc ∨
        (i ≤ p.1 ∧ ∃ u v : LexToken,
          l.get? (p.1 - i) = some u ∧ l.get? (p.1 - i + 1) = some v ∧
          u.token = Token.Import ∧ v.token = Token.Str p.2) := by
  intro l
  induction l with
  | nil =>
    intro i acc res h _ hpw
    simp only [getImportListAux, Except.ok.injEq] at h
    subst h
    exact ⟨hpw, fun p hp => Or.inl hp⟩
  | cons t0 l' ih =>
    intro i acc res h hlt hpw
    cases l' with
    | nil =>
      simp only [getImportListAux, Except.ok.injEq] at h
      subst h
      exact ⟨hpw, fun p hp => Or.inl hp⟩
    | cons t1 rest =>
      unfold getImportListAux at h
      split at h
      · rename_i himp
        split at h
        · rename_i s hstr
          split at h
          · exact absurd h (by simp)
          · rename_i hdup
            have hpush :
                (∀ p ∈ acc ++ [(i, s)], p.1 < i + 1) ∧
                List.Pairwise (fun p q => p.1 < q.1) (acc ++ [(i, s)]) := by
              constructor
              · intro p hp
                rcases List.mem_append.1 hp with hp | hp
                · have := hlt p hp; omega
                · rcases List.mem_singleton.1 hp with rfl; omega
              · rw [List.pairwise_append]
                refine ⟨hpw, List.pairwise_singleton _ _, ?_⟩
                intro p hp q hq
                rcases List.mem_singleton.1 hq with rfl
                exact hlt p hp
            have hgood : i ≤ (i, s).1 ∧ ∃ u v : LexToken,
                (t0 :: t1 :: rest).get? ((i, s).1 - i) = some u ∧
                (t0 :: t1 :: rest).get? ((i, s).1 - i + 1) = some v ∧
                u.token = Token.Import ∧ v.token = Token.Str (i, s).2 := by
              refine ⟨le_refl _, t0, t1, ?_, ?_, himp, hstr⟩
              · simp
              · simp
            split at h
            · rename_i prev hprev
              split at h
              · exact absurd h (by simp)
              · obtain ⟨hpw', hfact⟩ := ih (i + 1) (acc ++ [(i, s)]) res h hpush.1 hpush.2
                refine ⟨hpw', fun p hp => ?_⟩
                rcases hfact p hp with hmem | hg
                · rcases List.mem_append.1 hmem with hmem | hmem
                  · exact Or.inl hmem
                  · rcases List.mem_singleton.1 hmem with rfl
                    exact Or.inr hgood
                · exact Or.inr (good_shift hg)
            · obtain ⟨hpw', hfact⟩ := ih (i + 1) (acc ++ [(i, s)]) res h hpush.1 hpush.2
              refine ⟨hpw', fun p hp => ?_⟩
              rcases hfact p hp with hmem | hg
              · rcases List.mem_append.1 hmem with hmem | hmem
                · exact Or.inl hmem
                · rcases List.mem_singleton.1 hmem with rfl
                  exact Or.inr hgood
              · exact Or.inr (good_shift hg)
        · exact absurd h (by simp)
      · obtain ⟨hpw', hfact⟩ := ih (i + 1) acc res h
          (fun p hp => by have := hlt p hp; omega) hpw
        refine ⟨hpw', fun p hp => ?_⟩
        rcases hfact p hp with hmem | hg
        · exact Or.inl hmem
        · exact Or.inr (good_shift hg)

theorem insertDesc_of_all_lt (x : Nat × String) :
    ∀ l : List (Nat × String), (∀ y ∈ l, x.1 < y.1) → insertDesc x l = l ++ [x] := by
  intro l
  induction l with
  | nil => intro _; rfl
  | cons y ys ih =>
    intro h
    have hy : x.1 < y.1 := h y (List.mem_cons_self _ _)
    unfold insertDesc
    rw [if_neg (by omega)]
    rw [ih fun z hz => h z (List.mem_cons_of_mem _ hz)]
    rfl

/-- The indices recorded by `get_import_list` are strictly increasing, so
the descending `sort_by_key(Reverse(index))` is exactly list reversal. -/
theorem sortByIndexDesc_of_ascending :
    ∀ l : List (Nat × String), List.Pairwise (fun p q => p.1 < q.1) l →
      sortByIndexDesc l = l.reverse := by
  intro l
  induction l with
  | nil => intro _; rfl
  | cons x xs ih =>
    intro hpw
    rcases List.pairwise_cons.1 hpw with ⟨hx, hxs⟩
    show insertDesc x (sortByIndexDesc xs) = (x :: xs).reverse
    rw [ih hxs, List.reverse_cons]
    exact insertDesc_of_all_lt x xs.reverse fun y hy => hx y (List.mem_reverse.1 hy)

/-- The pair-of-tokens facts that `spliceLoop` needs about every still
pending import index. -/
def ImportsOk (tokens : List LexToken) (imps : List (Nat × String)) : Prop :=
  ∀ p ∈ imps, ∃ u v : LexToken,
    tokens.get? p.1 = some u ∧ tokens.get? (p.1 + 1) = some v ∧
    u.token = Token.Import ∧ v.token = Token.Str p.2

/-- Prefix reads through an append. -/
theorem get?_append_left {α : Type} {A B : List α} {n : Nat} (h : n < A.length) :
    (A ++ B).get? n = A.get? n := by
  rw [List.get?_eq_getElem?, List.get?_eq_getElem?, List.getElem?_append, if_pos h]

/-- Ending in `Eof` survives the splicing loop: every splice point sits
strictly before the final token, and each splice keeps the suffix from
`i + 2` on, hence the last element. -/
theorem spliceLoop_endsEof :
    ∀ (imps : List (Nat × String)) (fuel : Nat) (fs : FS) (wp : String)
      (tokens ts : List LexToken),
      List.Pairwise (fun p q => q.1 < p.1) imps →
      ImportsOk tokens imps →
      (∃ p, tokens.getLast? = some { token := Token.Eof, pos := p }) →
      spliceLoop fuel fs wp imps tokens = some (.ok ts) →
      ∃ p, ts.getLast? = some { token := Token.Eof, pos := p } := by
  intro imps
  induction imps with
  | nil =>
    intro fuel fs wp tokens ts _ _ hEof h
    simp only [spliceLoop, Option.some.injEq, TkResult.ok.injEq] at h
    subst h
    exact hEof
  | cons hd rest ih =>
    intro fuel fs wp tokens ts hpw hok hEof h
    obtain ⟨i, nm⟩ := hd
    obtain ⟨u, v, hu, hv, hut, hvt⟩ := hok (i, nm) (List.mem_cons_self _ _)
    dsimp only at hu hv hvt
    obtain ⟨pe, hlast⟩ := hEof
    have hvlt : i + 1 < tokens.length := (List.get?_eq_some.1 hv).1
    have hne : i + 1 ≠ tokens.length - 1 := by
      intro he
      rw [List.getLast?_eq_get?, ← he, hv] at hlast
      have hveq : v.token = Token.Eof := by
        injection hlast with h'
        rw [h']
      rw [hvt] at hveq
      exact Token.noConfusion hveq
    have hdrop : tokens.drop (i + 2) ≠ [] := by
      rw [Ne, List.drop_eq_nil_iff_le]
      omega
    have hilt : i < tokens.length := by omega
    have htake : (List.take i tokens).length = i := by
      rw [List.length_take]; omega
    unfold spliceLoop at h
    split at h
    · rename_i heq
      rw [hu] at heq
      exact absurd heq (by simp)
    · rename_i t heq
      rw [hu] at heq
      injection heq with heq
      subst heq
      split at h
      · exact absurd h (by simp)
      · exact absurd h (by simp)
      · exact absurd h (by simp)
      · rename_i imp hparse
        rw [if_pos (show i + 2 ≤ tokens.length by omega)] at h
        refine ih fuel fs wp _ ts (List.pairwise_cons.1 hpw).2 ?_ ?_ h
        · -- the remaining import indices still point at Import/Str pairs
          intro q hq
          obtain ⟨u', v', hu', hv', hut', hvt'⟩ := hok q (List.mem_cons_of_mem _ hq)
          have hqlt : q.1 < i := (List.pairwise_cons.1 hpw).1 q hq
          have hq1 : q.1 + 1 < i := by
            rcases Nat.lt_or_ge (q.1 + 1) i with h' | h'
            · exact h'
            · have he : q.1 + 1 = i := by omega
              rw [he, hu] at hv'
              injection hv' with h''
              rw [← h'', hut] at hvt'
              exact Token.noConfusion hvt'
          refine ⟨u', v', ?_, ?_, hut', hvt'⟩
          · rw [get?_append_left, get?_append_left, List.get?_take hqlt]
            · exact hu'
            · omega
            · rw [List.length_append, htake]
              omega
          · rw [get?_append_left, get?_append_left, List.get?_take hq1]
            · exact hv'
            · omega
            · rw [List.length_append, htake]
              omega
        · -- the spliced list still ends in the main Eof
          have hsplit : tokens.getLast? =
              (List.take (i + 2) tokens ++ List.drop (i + 2) tokens).getLast? := by
            rw [List.take_append_drop]
          rw [List.getLast?_append_of_ne_nil _ hdrop] at hsplit
          have h2 := List.getLast?_append_of_ne_nil
            (List.take i tokens ++ imp.dropLast) hdrop
          refine ⟨pe, ?_⟩
          rw [h2, ← hsplit]
          exact hlast

/-- C4 amended: every successful tokenization run (including import
splicing) produces a nonempty stream whose final element is an `Eof`
token; the per-import trailing token is dropped by each splice, which
always happens strictly before the stream's final token.  (Uniqueness of
`Eof` does not hold — see the counterexample: the word `_eof` lexes to
an additional `Eof`.) -/
theorem c4_ends_with_eof (fuel : Nat) (fs : FS) (mainName : String)
    (ts : List LexToken) (h : tokenize fuel fs mainName = some (.ok ts)) :
    ∃ p, ts.getLast? = some { token := Token.Eof, pos := p } := by
  unfold tokenize at h
  split at h
  · exact absurd h (by simp)
  · exact absurd h (by simp)
  · exact absurd h (by simp)
  · rename_i tokens hpf
    have hEof : ∃ p, tokens.getLast? = some { token := Token.Eof, pos := p } := by
      unfold parseFile at hpf
      split at hpf
      · exact absurd hpf (by simp)
      · rename_i text hfs
        split at hpf
        · exact absurd hpf (by simp)
        · exact absurd hpf (by simp)
        · rename_i ts' hsc
          unfold scan at hsc
          simp only [Option.some.injEq, TkResult.ok.injEq] at hpf
          subst hpf
          exact scanLoop_endsEof fuel _ [] _ hsc
    cases hgl : getImportList tokens with
    | error e =>
      rw [hgl] at h
      exact absurd h (by simp)
    | ok imports =>
      rw [hgl] at h
      dsimp only at h
      have hgl' : getImportListAux tokens 0 [] = .ok imports := hgl
      obtain ⟨hpwAsc, hfact⟩ := getImportListAux_spec tokens 0 [] imports hgl'
        (by intro p hp; simp at hp) (List.Pairwise.nil)
      rw [sortByIndexDesc_of_ascending imports hpwAsc] at h
      refine spliceLoop_endsEof imports.reverse fuel fs _ tokens ts ?_ ?_ hEof h
      · exact List.pairwise_reverse.2 hpwAsc
      · intro p hp
        rcases hfact p (List.mem_reverse.1 hp) with hmem | hg
        · exact absurd hmem (List.not_mem_nil p)
        · obtain ⟨-, u, v, hu, hv, hut, hvt⟩ := hg
          rw [Nat.sub_zero] at hu hv
          exact ⟨u, v, hu, hv, hut, hvt⟩

theorem c4_ends_with_eof_witness :
    ∃ p, List.getLast?
      ([{ token := .Fn, pos := { fileName := "d/a.mpl", line := 1, col := 1 } },
        { token := .Let, pos := { fileName := "d/b.mpl", line := 1, col := 1 } },
        { token := .Print, pos := { fileName := "d/m.mpl", line := 1, col := 31 } },
        { token := .Eof, pos := { fileName := "d/m.mpl", line := 1, col := 37 } }] :
        List LexToken) =
      some { token := Token.Eof, pos := p } :=
  c4_ends_with_eof 60 fsTwoImports "d/m.mpl"
    [{ token := .Fn, pos := { fileName := "d/a.mpl", line := 1, col := 1 } },
     { token := .Let, pos := { fileName := "d/b.mpl", line := 1, col := 1 } },
     { token := .Print, pos := { fileName := "d/m.mpl", line := 1, col := 31 } },
     { token := .Eof, pos := { fileName := "d/m.mpl", line := 1, col := 37 } }]
    rfl

theorem getNextChar_of_drop {st : Lexer} {c : Char} {l : List Char}
    (h : st.text.drop st.i = c :: l) :
    (getNextChar st).1 = c ∧
    (getNextChar st).2.text.drop ((getNextChar st).2.i) = l := by
  have hlt : st.i < st.text.length := by
    by_contra hge
    rw [List.drop_eq_nil_iff_le.2 (by omega)] at h
    exact List.noConfusion h
  constructor
  · have h0 : st.text[st.i]? = some c := by
      have hd := List.getElem?_drop st.text st.i 0
      rw [h] at hd
      simpa using hd.symm
    rw [getNextChar_fst, List.getD_eq_getElem?_getD, h0]
    rfl
  · rw [getNextChar_text, getNextChar_i, ← List.drop_drop, h]
    rfl

theorem tryStringLoop_line_terminator :
    ∀ (pre : List Char) (fuel : Nat) (c : Char) (st : Lexer) (acc : List Char)
      (t : Char) (rest : List Char),
      c :: st.text.drop st.i = pre ++ t :: rest →
      (∀ x ∈ pre, x ≠ '"' ∧ x ≠ '\n' ∧ x ≠ '\r' ∧ x ≠ nul) →
      (t = '\n' ∨ t = '\r') →
      pre.length + 1 ≤ fuel →
      ∃ p, tryStringLoop fuel c st acc =
        some (.error { message := "Unclosed string", pos := p }) := by
  intro pre
  induction pre with
  | nil =>
    intro fuel c st acc t rest h hben ht hf
    have hct : c = t := by injection h
    subst hct
    cases fuel with
    | zero => omega
    | succ n =>
      refine ⟨st.pos, ?_⟩
      rcases ht with rfl | rfl
      · rfl
      · rfl
  | cons q pre' ih =>
    intro fuel c st acc t rest h hben ht hf
    have hcq : c = q := by injection h
    subst hcq
    have hdrop : st.text.drop st.i = pre' ++ t :: rest := by injection h
    obtain ⟨hq1, hq2, hq3, hq4⟩ := hben c (List.mem_cons_self _ _)
    cases fuel with
    | zero => simp at hf
    | succ n =>
      have hOr : ¬(c = '\n' ∨ c = '\r') := by
        rintro (rfl | rfl)
        · exact hq2 rfl
        · exact hq3 rfl
      have hstep : tryStringLoop (n + 1) c st acc =
          (if c = nul then some (.ok none)
           else if c = '\n' ∨ c = '\r' then
             some (.error { message := "Unclosed string", pos := st.pos })
           else if c = '"' then some (.ok (some (String.mk acc, st)))
           else tryStringLoop n (getNextChar st).1 (getNextChar st).2 (acc ++ [c])) :=
        rfl
      rw [hstep, if_neg hq4, if_neg hOr, if_neg hq1]
      rcases hE : pre' ++ t :: rest with _ | ⟨d, l'⟩
      · simp at hE
      · rw [hE] at hdrop
        obtain ⟨hc2, hd2⟩ := getNextChar_of_drop hdrop
        refine ih n (getNextChar st).1 (getNextChar st).2 (acc ++ [c]) t rest ?_
          (fun x hx => hben x (List.mem_cons_of_mem _ hx)) ht (by simp at hf; omega)
        rw [hc2, hd2, ← hE]

theorem tryStringLoop_end_of_input :
    ∀ (pre : List Char) (fuel : Nat) (c : Char) (st : Lexer) (acc : List Char),
      c :: st.text.drop st.i = pre →
      (∀ x ∈ pre, x ≠ '"' ∧ x ≠ '\n' ∧ x ≠ '\r' ∧ x ≠ nul) →
      pre.length + 1 ≤ fuel →
      tryStringLoop fuel c st acc = some (.ok none) := by
  intro pre
  induction pre with
  | nil =>
    intro fuel c st acc h
    exact absurd h (by simp)
  | cons q pre' ih =>
    intro fuel c st acc h hben hf
    have hcq : c = q := by injection h
    subst hcq
    have hdrop : st.text.drop st.i = pre' := by injection h
    obtain ⟨hq1, hq2, hq3, hq4⟩ := hben c (List.mem_cons_self _ _)
    cases fuel with
    | zero => simp at hf
    | succ n =>
      have hOr : ¬(c = '\n' ∨ c = '\r') := by
        rintro (rfl | rfl)
        · exact hq2 rfl
        · exact hq3 rfl
      have hstep : tryStringLoop (n + 1) c st acc =
          (if c = nul then some (.ok none)
           else if c = '\n' ∨ c = '\r' then
             some (.error { message := "Unclosed string", pos := st.pos })
           else if c = '"' then some (.ok (some (String.mk acc, st)))
           else tryStringLoop n (getNextChar st).1 (getNextChar st).2 (acc ++ [c])) :=
        rfl
      rw [hstep, if_neg hq4, if_neg hOr, if_neg hq1]
      rcases hE : pre' with _ | ⟨d, l'⟩
      · rw [hE] at hdrop
        have hlen : st.text.length ≤ st.i := List.drop_eq_nil_iff_le.1 hdrop
        have hc2 : (getNextChar st).1 = nul := by
          rw [getNextChar_fst, List.getD_eq_default _ _ (by omega)]
        cases n with
        | zero => simp [hE] at hf
        | succ m =>
          rw [hc2]
          rfl
      · rw [hE] at hdrop
        obtain ⟨hc2, hd2⟩ := getNextChar_of_drop hdrop
        refine ih n (getNextChar st).1 (getNextChar st).2 (acc ++ [c]) ?_
          (fun x hx => hben x (List.mem_cons_of_mem _ hx)) (by simp [hE] at hf ⊢; omega)
        rw [hc2, hd2, ← hE]

/-- C6 amended: inside a string literal a line terminator before the
closing quote is a fatal UnclosedString error, as claimed; but end of
input before the closing quote is *not*: `try_string` exits its loop on
the nul sentinel, restores the saved cursor and reports no match, so the
scan then fails later with an Unknown token error (see the
counterexample) rather than UnclosedString. -/
theorem c6_unclosed_string_behavior :
    (∀ (fuel : Nat) (st : Lexer) (pre rest : List Char) (t : Char),
      st.text.drop st.i = '"' :: (pre ++ t :: rest) →
      (∀ x ∈ pre, x ≠ '"' ∧ x ≠ '\n' ∧ x ≠ '\r' ∧ x ≠ nul) →
      (t = '\n' ∨ t = '\r') →
      pre.length + 1 ≤ fuel →
      ∃ p, tryString fuel st =
        some (.error { message := "Unclosed string", pos := p })) ∧
    (∀ (fuel : Nat) (st : Lexer) (pre : List Char),
      st.text.drop st.i = '"' :: pre →
      (∀ x ∈ pre, x ≠ '"' ∧ x ≠ '\n' ∧ x ≠ '\r' ∧ x ≠ nul) →
      pre.length + 1 ≤ fuel →
      tryString fuel st = some (.ok (none, st))) := by
  have hts : ∀ (fuel : Nat) (st : Lexer), tryString fuel st =
      (if (getNextChar st).1 = '"' then
        match tryStringLoop fuel (getNextChar (getNextChar st).2).1
            (getNextChar (getNextChar st).2).2 [] with
        | none => none
        | some (.error e) => some (.error e)
        | some (.ok (some (s, st'))) => some (.ok (some s, st'))
        | some (.ok none) => some (.ok (none, st))
      else some (.ok (none, st))) := fun fuel st => rfl
  constructor
  · intro fuel st pre rest t h hben ht hf
    obtain ⟨hc1, hd1⟩ := getNextChar_of_drop h
    rw [hts, if_pos hc1]
    rcases hE : pre ++ t :: rest with _ | ⟨d, l'⟩
    · simp at hE
    · rw [hE] at hd1
      obtain ⟨hc2, hd2⟩ := getNextChar_of_drop hd1
      obtain ⟨p, hloop⟩ := tryStringLoop_line_terminator pre fuel
        (getNextChar (getNextChar st).2).1 (getNextChar (getNextChar st).2).2 []
        t rest (by rw [hc2, hd2, ← hE]) hben ht hf
      refine ⟨p, ?_⟩
      rw [hloop]
  · intro fuel st pre h hben hf
    obtain ⟨hc1, hd1⟩ := getNextChar_of_drop h
    rw [hts, if_pos hc1]
    rcases hE : pre with _ | ⟨d, l'⟩
    · rw [hE] at hd1
      have hlen : (getNextChar st).2.text.length ≤ (getNextChar st).2.i :=
        List.drop_eq_nil_iff_le.1 hd1
      have hc2 : (getNextChar (getNextChar st).2).1 = nul := by
        rw [getNextChar_fst, List.getD_eq_default _ _ (by omega)]
      cases fuel with
      | zero => simp [hE] at hf
      | succ m =>
        have hl : tryStringLoop (m + 1) (getNextChar (getNextChar st).2).1
            (getNextChar (getNextChar st).2).2 [] = some (.ok none) := by
          rw [hc2]
          rfl
        rw [hl]
    · rw [hE] at hd1
      obtain ⟨hc2, hd2⟩ := getNextChar_of_drop hd1
      have hl := tryStringLoop_end_of_input pre fuel
        (getNextChar (getNextChar st).2).1 (getNextChar (getNextChar st).2).2 []
        (by rw [hc2, hd2, ← hE]) hben hf
      rw [hl]

theorem c6_unclosed_string_behavior_witness :
    (∃ p, tryString 10 (Lexer.init "m" "\"a\nz") =
      some (.error { message := "Unclosed string", pos := p })) ∧
    tryString 10 (Lexer.init "m" "\"a") =
      some (.ok (none, Lexer.init "m" "\"a")) :=
  ⟨c6_unclosed_string_behavior.1 10 (Lexer.init "m" "\"a\nz") ['a'] ['z'] '\n'
      rfl (by decide) (Or.inl rfl) (by simp),
   c6_unclosed_string_behavior.2 10 (Lexer.init "m" "\"a") ['a']
      rfl (by decide) (by simp)⟩

/-- A numeric lexeme can never contain a dot: the scan loop of
`try_number` pushes a character only when the classifier does not
recognize it, and `.` is always classified as the `Dot` symbol.  Hence
the dot-containing (`Float`) branch of `Lexer::parse` is unreachable. -/
theorem tryNumberLoop_no_dot :
    ∀ (fuel : Nat) (c : Char) (st : Lexer) (word : List Char) (saved : Lexer)
      (w : String) (st' : Lexer),
      tryNumberLoop fuel c st word saved = some (w, st') →
      '.' ∉ word →
      '.' ∉ w.toList := by
  intro fuel
  induction fuel with
  | zero =>
    intro c st word saved w st' h
    exact absurd h (by simp [tryNumberLoop])
  | succ n ih =>
    intro c st word saved w st' h hword
    unfold tryNumberLoop at h
    split at h
    · simp only [Option.some.injEq, Prod.mk.injEq] at h
      rw [← h.1]
      exact hword
    · split at h
      · simp only [Option.some.injEq, Prod.mk.injEq] at h
        rw [← h.1]
        exact hword
      · split at h
        · simp only [Option.some.injEq, Prod.mk.injEq] at h
          rw [← h.1]
          exact hword
        · rename_i hfs
          refine ih _ _ _ _ _ _ h ?_
          intro hc
          rcases List.mem_append.1 hc with hc | hc
          · exact hword hc
          · rcases List.mem_singleton.1 hc with rfl
            rw [show Token.fromStr (String.mk ['.']) = some Token.Dot from rfl] at hfs
            exact Option.noConfusion hfs
